import Mathlib

/-!
Verification of the OpenOA-Dashboard backend's aggregation pipeline
(src/dashboard-backend/app/main.py) against its natural-language
specification.  The tabular data is embedded shallowly: dataframe rows
become Lean structures, pandas filters become `List.filter`, means become
exact rational arithmetic, and the floating-point power `** 2.5` becomes
real-number `rpow`.  Serialization-time rounding (`round(x, k)`) is
presentation only and is not modelled.
-/

namespace OpenOADashboard

/-- One SCADA measurement row (la-haute-borne-data-2014-2015.csv after
`load_scada_data`).  `dateTime` is the parsed `Date_time` on an abstract
linear time axis; `p` is `P_avg` (kW), `ws` is `Ws_avg` (m/s), `wa` is
`Wa_avg` (wind direction, deg), `va` is `Va_avg` (vane angle, deg). -/
structure ScadaRow where
  dateTime : ℚ
  turbine : String
  p : ℚ
  ws : ℚ
  wa : ℚ
  va : ℚ
deriving DecidableEq

/-- One reanalysis row (era5_wind_la_haute_borne.csv after `load_era5_data`):
parsed `datetime` and the 100 m wind speed column `ws_100m`. -/
structure ReanRow where
  datetime : ℚ
  ws100 : ℚ
deriving DecidableEq

/-- One plant meter row (plant_data.csv after `load_plant_data`). -/
structure PlantRow where
  timeUtc : ℚ
  netEnergyKwh : ℚ
  availabilityKwh : ℚ
  curtailmentKwh : ℚ
deriving DecidableEq

/-- Mean of a list of rationals, `sum / len` (pandas `.mean()`); division by
zero yields `0` for the empty list. -/
def qmean (l : List ℚ) : ℚ := l.sum / l.length

/-- Maximum of a list (pandas `.max()`); `0` for the empty list, on which the
source never calls it. -/
def listMax : List ℚ → ℚ
  | [] => 0
  | x :: xs => xs.foldl max x

/-- Minimum of a list (pandas `.min()`); `0` for the empty list. -/
def listMin : List ℚ → ℚ
  | [] => 0
  | x :: xs => xs.foldl min x

/-! ## Long-term correction estimator (run_aep_analysis lines 853-858,
run_turbine_gross_energy_analysis lines 1113-1119) -/

/-- `era5_df[(era5_df['datetime'] >= op_start) & (era5_df['datetime'] <= op_end)]`:
the reanalysis rows inside the operational window, inclusive bounds. -/
def eraOpPeriod (era : List ReanRow) (opStart opEnd : ℚ) : List ReanRow :=
  era.filter (fun r => decide (opStart ≤ r.datetime) && decide (r.datetime ≤ opEnd))

/-- `op_period_ws`: mean `ws_100m` over the operational window, falling back
to the full-table mean when the window matches zero rows. -/
def opPeriodWs (era : List ReanRow) (opStart opEnd : ℚ) : ℚ :=
  if 0 < (eraOpPeriod era opStart opEnd).length then
    qmean ((eraOpPeriod era opStart opEnd).map ReanRow.ws100)
  else qmean (era.map ReanRow.ws100)

/-- `ltm_ws`: mean `ws_100m` over the whole reanalysis table. -/
def ltmWs (era : List ReanRow) : ℚ := qmean (era.map ReanRow.ws100)

/-- `(ltm_ws / op_period_ws) ** 2.5 if op_period_ws > 0 else 1.0`
(main.py line 858), as a real-valued function of the two means. -/
noncomputable def corrFactor (op ltm : ℝ) : ℝ :=
  if 0 < op then (ltm / op) ^ ((5 : ℝ) / 2) else 1

/-- `ltm_correction_factor`: the correction factor computed from a
reanalysis table and an operational window. -/
noncomputable def ltmCorrectionFactor (era : List ReanRow) (opStart opEnd : ℚ) : ℝ :=
  corrFactor ((opPeriodWs era opStart opEnd : ℚ) : ℝ) ((ltmWs era : ℚ) : ℝ)

lemma eraOpPeriod_mem (era : List ReanRow) (s e : ℚ) (r : ReanRow) :
    r ∈ eraOpPeriod era s e ↔ r ∈ era ∧ s ≤ r.datetime ∧ r.datetime ≤ e := by
  simp [eraOpPeriod, List.mem_filter]

lemma corrFactor_self (m : ℝ) : corrFactor m m = 1 := by
  unfold corrFactor
  by_cases h : 0 < m
  · rw [if_pos h, div_self (ne_of_gt h), Real.one_rpow]
  · rw [if_neg h]

/-- Claim C1: the long-term correction estimator selects reanalysis rows by
inclusive window bounds, returns `(ltm_mean / op_mean) ** 2.5` when the
operational mean is positive, falls back to the full-table mean (hence
factor 1) when zero rows fall in the window, and returns 1 when the
operational mean is zero. -/
theorem claim1_ltm_correction (era : List ReanRow) (s e : ℚ) :
    (∀ r : ReanRow, r ∈ eraOpPeriod era s e ↔ r ∈ era ∧ s ≤ r.datetime ∧ r.datetime ≤ e) ∧
    (0 < opPeriodWs era s e →
      ltmCorrectionFactor era s e =
        (((ltmWs era : ℚ) : ℝ) / ((opPeriodWs era s e : ℚ) : ℝ)) ^ ((5 : ℝ) / 2)) ∧
    (eraOpPeriod era s e = [] →
      opPeriodWs era s e = ltmWs era ∧ ltmCorrectionFactor era s e = 1) ∧
    (opPeriodWs era s e = 0 → ltmCorrectionFactor era s e = 1) := by
  refine ⟨eraOpPeriod_mem era s e, ?_, ?_, ?_⟩
  · intro h
    have h' : (0 : ℝ) < ((opPeriodWs era s e : ℚ) : ℝ) := by exact_mod_cast h
    unfold ltmCorrectionFactor corrFactor
    rw [if_pos h']
  · intro h
    have hop : opPeriodWs era s e = ltmWs era := by
      unfold opPeriodWs
      rw [h]
      simp [ltmWs]
    refine ⟨hop, ?_⟩
    unfold ltmCorrectionFactor
    rw [hop]
    exact corrFactor_self _
  · intro h
    unfold ltmCorrectionFactor corrFactor
    rw [h]
    norm_num

/-- Witness for claim C1: a one-row table whose operational window [1, 2]
matches no row, so the fallback makes the correction factor exactly 1. -/
theorem claim1_ltm_correction_witness :
    ltmCorrectionFactor [⟨0, 5⟩] 1 2 = 1 :=
  ((claim1_ltm_correction [⟨0, 5⟩] 1 2).2.2.1 (by decide)).2

/-! ## List helper lemmas -/

lemma foldl_max_mem (a : ℚ) : ∀ xs : List ℚ, xs.foldl max a ∈ a :: xs := by
  intro xs
  induction xs generalizing a with
  | nil => simp
  | cons x xs ih =>
    have h := ih (max a x)
    rcases List.mem_cons.mp h with h1 | h1
    · rcases max_choice a x with hm | hm <;> rw [List.foldl_cons, h1, hm] <;> simp
    · simp only [List.foldl_cons]
      exact List.mem_cons_of_mem _ (List.mem_cons_of_mem _ h1)

lemma le_foldl_max (a : ℚ) : ∀ xs : List ℚ,
    a ≤ xs.foldl max a ∧ ∀ x ∈ xs, x ≤ xs.foldl max a := by
  intro xs
  induction xs generalizing a with
  | nil => simp
  | cons x xs ih =>
    obtain ⟨h1, h2⟩ := ih (max a x)
    refine ⟨le_trans (le_max_left a x) h1, ?_⟩
    intro y hy
    rcases List.mem_cons.mp hy with rfl | hy
    · exact le_trans (le_max_right a y) h1
    · exact h2 y hy

lemma listMax_mem (l : List ℚ) (h : l ≠ []) : listMax l ∈ l := by
  match l with
  | [] => exact absurd rfl h
  | x :: xs => exact foldl_max_mem x xs

lemma le_listMax (l : List ℚ) : ∀ x ∈ l, x ≤ listMax l := by
  match l with
  | [] => intro x hx; exact absurd hx (List.not_mem_nil x)
  | x :: xs =>
    intro y hy
    rcases List.mem_cons.mp hy with rfl | hy
    · exact (le_foldl_max y xs).1
    · exact (le_foldl_max x xs).2 y hy

lemma sum_le_length_mul (m : ℚ) : ∀ l : List ℚ, (∀ x ∈ l, x ≤ m) →
    l.sum ≤ (l.length : ℚ) * m := by
  intro l
  induction l with
  | nil => simp
  | cons x xs ih =>
    intro h
    have hx := h x (List.mem_cons_self x xs)
    have hs := ih (fun y hy => h y (List.mem_cons_of_mem x hy))
    simp only [List.sum_cons, List.length_cons]
    push_cast
    linarith

lemma sum_of_all_eq (m : ℚ) : ∀ l : List ℚ, (∀ x ∈ l, x = m) →
    l.sum = (l.length : ℚ) * m := by
  intro l
  induction l with
  | nil => simp
  | cons x xs ih =>
    intro h
    have hx := h x (List.mem_cons_self x xs)
    have hs := ih (fun y hy => h y (List.mem_cons_of_mem x hy))
    simp only [List.sum_cons, List.length_cons, hx, hs]
    push_cast
    ring

lemma sum_eq_length_mul_iff (m : ℚ) : ∀ l : List ℚ, (∀ x ∈ l, x ≤ m) →
    (l.sum = (l.length : ℚ) * m ↔ ∀ x ∈ l, x = m) := by
  intro l
  induction l with
  | nil => simp
  | cons x xs ih =>
    intro h
    have hx := h x (List.mem_cons_self x xs)
    have hle := sum_le_length_mul m xs (fun y hy => h y (List.mem_cons_of_mem x hy))
    have ihx := ih (fun y hy => h y (List.mem_cons_of_mem x hy))
    constructor
    · intro heq
      have hxm : x = m := by
        by_contra hne
        have : x < m := lt_of_le_of_ne hx hne
        have : x + xs.sum < ((x :: xs).length : ℚ) * m := by
          simp only [List.length_cons]; push_cast; linarith
        simp only [List.sum_cons] at heq
        linarith
      have hsum : xs.sum = (xs.length : ℚ) * m := by
        simp only [List.sum_cons, List.length_cons, hxm] at heq
        push_cast at heq
        linarith
      intro y hy
      rcases List.mem_cons.mp hy with rfl | hy
      · exact hxm
      · exact ihx.mp hsum y hy
    · intro hall
      exact sum_of_all_eq m (x :: xs) hall

lemma list_sum_nonneg : ∀ l : List ℚ, (∀ x ∈ l, 0 ≤ x) → 0 ≤ l.sum := by
  intro l
  induction l with
  | nil => simp
  | cons a as ih =>
    intro h
    have hs := ih (fun y hy => h y (List.mem_cons_of_mem a hy))
    have ha := h a (List.mem_cons_self a as)
    simp only [List.sum_cons]
    linarith

lemma elem_le_sum_of_nonneg : ∀ l : List ℚ, (∀ x ∈ l, 0 ≤ x) →
    ∀ x ∈ l, x ≤ l.sum := by
  intro l
  induction l with
  | nil => intro _ x hx; exact absurd hx (List.not_mem_nil x)
  | cons a as ih =>
    intro h x hx
    have hsum : 0 ≤ as.sum :=
      list_sum_nonneg as (fun y hy => h y (List.mem_cons_of_mem a hy))
    rcases List.mem_cons.mp hx with rfl | hx
    · simp only [List.sum_cons]; linarith
    · have hx' := ih (fun y hy => h y (List.mem_cons_of_mem a hy)) x hx
      have ha := h a (List.mem_cons_self a as)
      simp only [List.sum_cons]; linarith

lemma qmean_le_listMax (l : List ℚ) (h : l ≠ []) : qmean l ≤ listMax l := by
  have hlen : 0 < (l.length : ℚ) := by
    have : 0 < l.length := List.length_pos.mpr h
    exact_mod_cast this
  have hsum := sum_le_length_mul (listMax l) l (le_listMax l)
  rw [qmean, div_le_iff₀ hlen]
  linarith [hsum]

lemma qmean_eq_listMax_iff (l : List ℚ) (h : l ≠ []) :
    qmean l = listMax l ↔ ∀ x ∈ l, x = listMax l := by
  have hlen : 0 < (l.length : ℚ) := by
    have : 0 < l.length := List.length_pos.mpr h
    exact_mod_cast this
  rw [qmean, div_eq_iff (ne_of_gt hlen)]
  rw [show listMax l * (l.length : ℚ) = (l.length : ℚ) * listMax l from mul_comm _ _]
  exact sum_eq_length_mul_iff (listMax l) l (le_listMax l)

lemma qmean_pos_of_listMax_pos (l : List ℚ) (h : l ≠ [])
    (hnn : ∀ x ∈ l, 0 ≤ x) (hmax : 0 < listMax l) : 0 < qmean l := by
  have hlen : 0 < (l.length : ℚ) := by
    have : 0 < l.length := List.length_pos.mpr h
    exact_mod_cast this
  have hmem := listMax_mem l h
  have hle := elem_le_sum_of_nonneg l hnn (listMax l) hmem
  exact div_pos (lt_of_lt_of_le hmax hle) hlen

/-! ## Energy totals (run_electrical_losses_analysis lines 939-941,
run_aep_analysis line 840) -/

/-- `total_energy_kwh = float(scada_df['P_avg'].sum())` — run_aep_analysis
line 840 labels the bare sum of 10-minute kW readings as kWh, with no
sampling-interval conversion. -/
def aepTotalEnergyKwh (scada : List ScadaRow) : ℚ :=
  (scada.map ScadaRow.p).sum

/-- `turbine_energy_kwh = float(scada_df['P_avg'].sum()) * (10/60)` —
run_electrical_losses_analysis line 941 applies the 10-minute interval
conversion to kWh. -/
def elecTurbineEnergyKwh (scada : List ScadaRow) : ℚ :=
  (scada.map ScadaRow.p).sum * (10 / 60)

/-- The spec's example input: three rows for turbine T1 with powers
100, 200, 300 kW at 10-minute spacing. -/
def threeRowExample : List ScadaRow :=
  [⟨0, "T1", 100, 0, 0, 0⟩, ⟨10, "T1", 200, 0, 0, 0⟩, ⟨20, "T1", 300, 0, 0, 0⟩]

/-- Claim C2 (code bug): on the spec's own example the electrical-losses
calculator returns the specified 100 kWh, but run_aep_analysis's
`total_energy_kwh` is the bare power sum 600, not Σ power × Δt. -/
theorem claim2_energy_total_eval :
    elecTurbineEnergyKwh threeRowExample = 100 ∧
    aepTotalEnergyKwh threeRowExample = 600 ∧
    aepTotalEnergyKwh threeRowExample ≠ elecTurbineEnergyKwh threeRowExample := by
  refine ⟨?_, ?_, ?_⟩ <;>
    norm_num [elecTurbineEnergyKwh, aepTotalEnergyKwh, threeRowExample]

/-! ## Wake loss per direction sector (run_wake_losses_analysis lines
1030-1047): within one direction bucket, group rows by turbine, normalize
each turbine's mean power by mean wind speed cubed plus 0.1, and report the
relative spread of normalized power. -/

/-- The keys of `dir_df.groupby('Wind_turbine_name')`: the distinct turbine
names occurring in the sector's rows. -/
def sectorTurbines (rows : List ScadaRow) : List String :=
  (rows.map ScadaRow.turbine).dedup

/-- The rows of one turbine. -/
def turbineRows (rows : List ScadaRow) (t : String) : List ScadaRow :=
  rows.filter (fun r => decide (r.turbine = t))

/-- Mean `P_avg` of one turbine's sector rows. -/
def turbineMeanP (rows : List ScadaRow) (t : String) : ℚ :=
  qmean ((turbineRows rows t).map ScadaRow.p)

/-- Mean `Ws_avg` of one turbine's sector rows. -/
def turbineMeanWs (rows : List ScadaRow) (t : String) : ℚ :=
  qmean ((turbineRows rows t).map ScadaRow.ws)

/-- `normalized_power = P_avg / (Ws_avg ** 3 + 0.1)` (line 1038). -/
def normalizedPower (rows : List ScadaRow) (t : String) : ℚ :=
  turbineMeanP rows t / (turbineMeanWs rows t ^ 3 + 1 / 10)

/-- The `normalized_power` column, one entry per turbine of the sector. -/
def sectorNorms (rows : List ScadaRow) : List ℚ :=
  (sectorTurbines rows).map (normalizedPower rows)

/-- `wake_loss = (max_norm - avg_norm) / max_norm * 100 if max_norm > 0 else 0`
(line 1043). -/
def sectorWakeLossPct (rows : List ScadaRow) : ℚ :=
  if 0 < listMax (sectorNorms rows) then
    (listMax (sectorNorms rows) - qmean (sectorNorms rows)) /
      listMax (sectorNorms rows) * 100
  else 0

/-- Claim C3 as amended: the sector wake-loss percentage is the coded
formula over normalized powers; whenever every turbine's normalized power
is nonnegative (in particular whenever all sector mean powers are
nonnegative), the percentage lies in [0, 100) and is 0 exactly when all
turbines' normalized powers coincide; a sector whose maximal normalized
power is not positive reports 0 (this covers the max_normalized ≤ 0 guard,
but with negative normalized powers the percentage can reach or exceed
100, so the claimed bound [0, 100) does not hold unconditionally). -/
theorem claim3_wake_loss_amended (rows : List ScadaRow)
    (hne : sectorTurbines rows ≠ [])
    (hnn : ∀ t ∈ sectorTurbines rows, 0 ≤ normalizedPower rows t) :
    0 ≤ sectorWakeLossPct rows ∧ sectorWakeLossPct rows < 100 ∧
    (sectorWakeLossPct rows = 0 ↔
      ∀ t ∈ sectorTurbines rows, ∀ u ∈ sectorTurbines rows,
        normalizedPower rows t = normalizedPower rows u) := by
  set N := sectorNorms rows with hNdef
  have hN : N ≠ [] := by
    rw [hNdef, sectorNorms]
    simp only [ne_eq, List.map_eq_nil_iff]
    exact hne
  have hnnN : ∀ x ∈ N, 0 ≤ x := by
    intro x hx
    rw [hNdef, sectorNorms] at hx
    obtain ⟨t, ht, rfl⟩ := List.mem_map.mp hx
    exact hnn t ht
  by_cases hmax : 0 < listMax N
  · have hAle : qmean N ≤ listMax N := qmean_le_listMax N hN
    have hApos : 0 < qmean N := qmean_pos_of_listMax_pos N hN hnnN hmax
    have hloss : sectorWakeLossPct rows =
        (listMax N - qmean N) / listMax N * 100 := by
      rw [sectorWakeLossPct, if_pos (by rw [← hNdef]; exact hmax)]
    refine ⟨?_, ?_, ?_⟩
    · rw [hloss]
      have : 0 ≤ (listMax N - qmean N) / listMax N :=
        div_nonneg (by linarith) (le_of_lt hmax)
      linarith
    · rw [hloss]
      have h1 : (listMax N - qmean N) / listMax N < 1 :=
        (div_lt_one hmax).mpr (by linarith)
      nlinarith
    · rw [hloss]
      have hiff1 : (listMax N - qmean N) / listMax N * 100 = 0 ↔
          qmean N = listMax N := by
        constructor
        · intro h
          rcases mul_eq_zero.mp h with h | h
          · rcases div_eq_zero_iff.mp h with h | h
            · linarith
            · exact absurd h (ne_of_gt hmax)
          · norm_num at h
        · intro h
          rw [h]
          simp
      rw [hiff1, qmean_eq_listMax_iff N hN]
      constructor
      · intro hall t ht u hu
        have h1 : normalizedPower rows t = listMax N :=
          hall _ (by rw [hNdef, sectorNorms]; exact List.mem_map_of_mem _ ht)
        have h2 : normalizedPower rows u = listMax N :=
          hall _ (by rw [hNdef, sectorNorms]; exact List.mem_map_of_mem _ hu)
        rw [h1, h2]
      · intro hpair
        obtain ⟨t0, ht0⟩ := List.exists_mem_of_ne_nil _ hne
        have hall0 : ∀ x ∈ N, x = normalizedPower rows t0 := by
          intro x hx
          rw [hNdef, sectorNorms] at hx
          obtain ⟨t, ht, rfl⟩ := List.mem_map.mp hx
          exact hpair t ht t0 ht0
        have hM : listMax N = normalizedPower rows t0 :=
          hall0 _ (listMax_mem N hN)
        intro x hx
        rw [hall0 x hx, hM]
  · have hloss : sectorWakeLossPct rows = 0 := by
      rw [sectorWakeLossPct, if_neg (by rw [← hNdef]; exact hmax)]
    have hzero : ∀ x ∈ N, x = 0 := by
      intro x hx
      have h1 := hnnN x hx
      have h2 := le_listMax N x hx
      have h3 : listMax N ≤ 0 := le_of_not_lt hmax
      linarith
    refine ⟨by rw [hloss], by rw [hloss]; norm_num, ?_⟩
    rw [hloss]
    constructor
    · intro _ t ht u hu
      have h1 : normalizedPower rows t = 0 :=
        hzero _ (by rw [hNdef, sectorNorms]; exact List.mem_map_of_mem _ ht)
      have h2 : normalizedPower rows u = 0 :=
        hzero _ (by rw [hNdef, sectorNorms]; exact List.mem_map_of_mem _ hu)
      rw [h1, h2]
    · intro _
      rfl

/-- A sector with two turbines at wind speed 1 and mean powers 8 and 4 kW:
normalized powers 80/11 and 40/11, both nonnegative. -/
def wakeWitnessRows : List ScadaRow :=
  [⟨0, "A", 8, 1, 0, 0⟩, ⟨0, "B", 4, 1, 0, 0⟩]

/-- Witness for the amended claim C3 at a concrete two-turbine sector. -/
theorem claim3_wake_loss_amended_witness :
    0 ≤ sectorWakeLossPct wakeWitnessRows ∧ sectorWakeLossPct wakeWitnessRows < 100 ∧
    (sectorWakeLossPct wakeWitnessRows = 0 ↔
      ∀ t ∈ sectorTurbines wakeWitnessRows, ∀ u ∈ sectorTurbines wakeWitnessRows,
        normalizedPower wakeWitnessRows t = normalizedPower wakeWitnessRows u) := by
  have hst : sectorTurbines wakeWitnessRows = ["A", "B"] := rfl
  have hA : turbineRows wakeWitnessRows "A" = [⟨0, "A", 8, 1, 0, 0⟩] := rfl
  have hB : turbineRows wakeWitnessRows "B" = [⟨0, "B", 4, 1, 0, 0⟩] := rfl
  refine claim3_wake_loss_amended wakeWitnessRows (by rw [hst]; simp) ?_
  intro t ht
  rw [hst] at ht
  rcases List.mem_cons.mp ht with rfl | ht
  · rw [normalizedPower, turbineMeanP, turbineMeanWs, hA]
    norm_num [qmean]
  · rcases List.mem_cons.mp ht with rfl | ht
    · rw [normalizedPower, turbineMeanP, turbineMeanWs, hB]
      norm_num [qmean]
    · exact absurd ht (List.not_mem_nil t)

/-! ## Value binning with pd.cut (get_power_curve_data lines 489-497,
get_wind_rose_data lines 553-559, run_wake_losses_analysis lines 1021-1022,
run_yaw_misalignment_analysis lines 1197-1198).  `pd.cut(x, bins=edges)`
with the default `right=True` assigns x to the first interval
`(edges[i], edges[i+1]]`; with `include_lowest=True` the first interval is
additionally closed on the left.  A value outside every interval gets NaN,
and NaN-keyed rows vanish from the subsequent groupby/selection. -/

/-- The bin intervals of `pd.cut`: consecutive pairs of the edge array. -/
def cutBins (edges : List ℚ) : List (ℚ × ℚ) := edges.zip edges.tail

/-- Index of the first interval `(lo, hi]` containing x. -/
def cutIdxGo (x : ℚ) : List (ℚ × ℚ) → Option ℕ
  | [] => none
  | b :: rest =>
    if b.1 < x ∧ x ≤ b.2 then some 0
    else (cutIdxGo x rest).map (· + 1)

/-- `pd.cut(x, bins=edges, right=True, include_lowest=il)` as a bin index:
`none` models the NaN bin for out-of-range values. -/
def cutIdx (edges : List ℚ) (il : Bool) (x : ℚ) : Option ℕ :=
  match cutBins edges with
  | [] => none
  | b :: rest =>
    if (if il then b.1 ≤ x else b.1 < x) ∧ x ≤ b.2 then some 0
    else (cutIdxGo x rest).map (· + 1)

/-- Modelled from the spec: value buckets are half-open intervals
`[lo, hi)` except the final bucket, which is closed on both ends; this is
the bucket-assignment rule the claim asserts, for comparison with the
coded `cutIdx`. -/
def specIdxGo (x : ℚ) : List (ℚ × ℚ) → Option ℕ
  | [] => none
  | [b] => if b.1 ≤ x ∧ x ≤ b.2 then some 0 else none
  | b :: b2 :: rest =>
    if b.1 ≤ x ∧ x < b.2 then some 0
    else (specIdxGo x (b2 :: rest)).map (· + 1)

/-- The spec's claimed bucket assignment over an edge array. -/
def specBinIdx (edges : List ℚ) (x : ℚ) : Option ℕ := specIdxGo x (cutBins edges)

/-- `np.arange(0, 30 + bin_width, bin_width)` at the default
`bin_width = 0.5` (get_power_curve_data line 489). -/
def wsEdges : List ℚ :=
  [0, 1 / 2, 1, 3 / 2, 2, 5 / 2, 3, 7 / 2, 4, 9 / 2, 5, 11 / 2, 6, 13 / 2, 7,
   15 / 2, 8, 17 / 2, 9, 19 / 2, 10, 21 / 2, 11, 23 / 2, 12, 25 / 2, 13,
   27 / 2, 14, 29 / 2, 15, 31 / 2, 16, 33 / 2, 17, 35 / 2, 18, 37 / 2, 19,
   39 / 2, 20, 41 / 2, 21, 43 / 2, 22, 45 / 2, 23, 47 / 2, 24, 49 / 2, 25,
   51 / 2, 26, 53 / 2, 27, 55 / 2, 28, 57 / 2, 29, 59 / 2, 30]

/-- `np.arange(0, 361, 22.5)` (get_wind_rose_data line 554): 16 direction
sectors. -/
def roseEdges : List ℚ :=
  [0, 45 / 2, 45, 135 / 2, 90, 225 / 2, 135, 315 / 2, 180, 405 / 2, 225,
   495 / 2, 270, 585 / 2, 315, 675 / 2, 360]

/-- `np.arange(0, 361, 30)` (run_wake_losses_analysis line 1021): 12
direction sectors. -/
def dirEdges : List ℚ :=
  [0, 30, 60, 90, 120, 150, 180, 210, 240, 270, 300, 330, 360]

lemma cutIdxGo_some (x : ℚ) : ∀ (bins : List (ℚ × ℚ)) (i : ℕ),
    cutIdxGo x bins = some i →
    ∃ b, bins[i]? = some b ∧ b.1 < x ∧ x ≤ b.2 := by
  intro bins
  induction bins with
  | nil => intro i h; simp [cutIdxGo] at h
  | cons b rest ih =>
    intro i h
    rw [cutIdxGo] at h
    by_cases hc : b.1 < x ∧ x ≤ b.2
    · rw [if_pos hc] at h
      obtain rfl : (0 : ℕ) = i := Option.some.inj h
      exact ⟨b, by simp, hc⟩
    · rw [if_neg hc] at h
      obtain ⟨j, hj, rfl⟩ := Option.map_eq_some'.mp h
      obtain ⟨b', hb', hcond⟩ := ih j hj
      exact ⟨b', by simpa using hb', hcond⟩

lemma cutIdxGo_none (x : ℚ) : ∀ bins : List (ℚ × ℚ),
    cutIdxGo x bins = none ↔ ∀ b ∈ bins, ¬(b.1 < x ∧ x ≤ b.2) := by
  intro bins
  induction bins with
  | nil => simp [cutIdxGo]
  | cons b rest ih =>
    rw [cutIdxGo]
    by_cases hc : b.1 < x ∧ x ≤ b.2
    · rw [if_pos hc]
      simp only [List.mem_cons]
      constructor
      · intro h; exact absurd h (by simp)
      · intro h; exact absurd hc (h b (Or.inl rfl))
    · rw [if_neg hc]
      simp only [Option.map_eq_none', List.mem_cons]
      rw [ih]
      constructor
      · intro h y hy
        rcases hy with rfl | hy
        · exact hc
        · exact h y hy
      · intro h y hy
        exact h y (Or.inr hy)

lemma cutIdx_some (edges : List ℚ) (il : Bool) (x : ℚ) (i : ℕ)
    (h : cutIdx edges il x = some i) :
    ∃ b, (cutBins edges)[i]? = some b ∧ x ≤ b.2 ∧
      (b.1 < x ∨ (il = true ∧ i = 0 ∧ b.1 ≤ x)) := by
  rcases hbins : cutBins edges with _ | ⟨b, rest⟩
  · exact absurd h (by rw [cutIdx, hbins]; simp)
  · have h' : (if (if il then b.1 ≤ x else b.1 < x) ∧ x ≤ b.2 then some 0
        else (cutIdxGo x rest).map (· + 1)) = some i := by
      rw [cutIdx, hbins] at h
      exact h
    by_cases hc : (if il then b.1 ≤ x else b.1 < x) ∧ x ≤ b.2
    · rw [if_pos hc] at h'
      obtain rfl : (0 : ℕ) = i := Option.some.inj h'
      refine ⟨b, by simp, hc.2, ?_⟩
      cases il with
      | false => exact Or.inl (by simpa using hc.1)
      | true => exact Or.inr ⟨rfl, rfl, by simpa using hc.1⟩
    · rw [if_neg hc] at h'
      obtain ⟨j, hj, rfl⟩ := Option.map_eq_some'.mp h'
      obtain ⟨b', hb', hcond⟩ := cutIdxGo_some x rest j hj
      exact ⟨b', by simpa using hb', hcond.2, Or.inl hcond.1⟩

lemma cutIdx_none (edges : List ℚ) (il : Bool) (x : ℚ)
    (h : cutIdx edges il x = none) :
    ∀ b ∈ cutBins edges, ¬(b.1 < x ∧ x ≤ b.2) := by
  rcases hbins : cutBins edges with _ | ⟨b, rest⟩
  · simp
  · have h' : (if (if il then b.1 ≤ x else b.1 < x) ∧ x ≤ b.2 then some 0
        else (cutIdxGo x rest).map (· + 1)) = none := by
      rw [cutIdx, hbins] at h
      exact h
    by_cases hc : (if il then b.1 ≤ x else b.1 < x) ∧ x ≤ b.2
    · rw [if_pos hc] at h'; exact absurd h' (by simp)
    · rw [if_neg hc] at h'
      intro y hy
      rcases List.mem_cons.mp hy with rfl | hy
      · intro hcon
        apply hc
        refine ⟨?_, hcon.2⟩
        cases il with
        | false => simpa using hcon.1
        | true => simpa using le_of_lt hcon.1
      · exact ((cutIdxGo_none x rest).mp (by simpa using h')) y hy

lemma cutIdx_lt_length (edges : List ℚ) (il : Bool) (x : ℚ) (i : ℕ)
    (h : cutIdx edges il x = some i) : i < (cutBins edges).length := by
  obtain ⟨b, hb, _⟩ := cutIdx_some edges il x i h
  exact (List.getElem?_eq_some.mp hb).1

/-- Bin assignment of the coded pd.cut at the lowest edge and at an
interior edge of the default power-curve bins. -/
lemma cutIdx_ws_at_half : cutIdx wsEdges false (1 / 2) = some 0 := by
  rw [cutIdx]
  norm_num [cutBins, wsEdges]

lemma cutIdx_ws_at_zero : cutIdx wsEdges false 0 = none := by
  rw [cutIdx]
  norm_num [cutBins, wsEdges, cutIdxGo]

lemma specBinIdx_ws_at_half : specBinIdx wsEdges (1 / 2) = some 1 := by
  rw [specBinIdx]
  norm_num [cutBins, wsEdges, specIdxGo]

lemma specBinIdx_ws_at_zero : specBinIdx wsEdges 0 = some 0 := by
  rw [specBinIdx]
  norm_num [cutBins, wsEdges, specIdxGo]

/-- Counterexample to claim C4 as stated: the coded binning places a wind
speed of exactly 0.5 m/s in bucket 0 = (0, 0.5], while the claimed
half-open rule puts it in bucket 1 = [0.5, 1); and the coded binning drops
a wind speed of exactly 0 m/s, while the claimed rule keeps it in
bucket 0. -/
theorem claim4_binning_counterexample :
    cutIdx wsEdges false (1 / 2) = some 0 ∧ specBinIdx wsEdges (1 / 2) = some 1 ∧
    cutIdx wsEdges false 0 = none ∧ specBinIdx wsEdges 0 = some 0 ∧
    cutIdx wsEdges false (1 / 2) ≠ specBinIdx wsEdges (1 / 2) :=
  ⟨cutIdx_ws_at_half, specBinIdx_ws_at_half, cutIdx_ws_at_zero,
   specBinIdx_ws_at_zero, by rw [cutIdx_ws_at_half, specBinIdx_ws_at_half]; simp⟩

/-- Claim C4 as amended: the coded bucket intervals are half-open `(lo, hi]`
(left-open, right-closed), the first bucket being additionally closed on
the left exactly where `include_lowest=True` is passed (the wind-rose and
wake direction binnings, not the power-curve binning); every row whose key
falls outside all intervals is assigned the NaN bucket (`none`) and so is
dropped from the aggregation. -/
theorem claim4_binning_amended (edges : List ℚ) (il : Bool) (x : ℚ) :
    (∀ i, cutIdx edges il x = some i →
      ∃ b, (cutBins edges)[i]? = some b ∧ x ≤ b.2 ∧
        (b.1 < x ∨ (il = true ∧ i = 0 ∧ b.1 ≤ x))) ∧
    (cutIdx edges il x = none → ∀ b ∈ cutBins edges, ¬(b.1 < x ∧ x ≤ b.2)) :=
  ⟨fun i h => cutIdx_some edges il x i h, cutIdx_none edges il x⟩

/-- Witness for the amended claim C4: at wind speed 0.5 m/s the coded
power-curve binning picks bucket 0, whose interval is (0, 0.5]. -/
theorem claim4_binning_amended_witness :
    ∃ b, (cutBins wsEdges)[0]? = some b ∧ (1 / 2 : ℚ) ≤ b.2 ∧
      (b.1 < (1 / 2 : ℚ) ∨ (false = true ∧ (0 : ℕ) = 0 ∧ b.1 ≤ (1 / 2 : ℚ))) :=
  (claim4_binning_amended wsEdges false (1 / 2)).1 0 cutIdx_ws_at_half

/-! ## Bucket-count accounting: a groupby over a bin key partitions the
rows, so summed bucket counts never exceed the input row count. -/

lemma sum_map_eq_zero {α : Type} (f : α → ℕ) : ∀ l : List α,
    (∀ i ∈ l, f i = 0) → (l.map f).sum = 0 := by
  intro l
  induction l with
  | nil => simp
  | cons x xs ih =>
    intro h
    simp only [List.map_cons, List.sum_cons]
    rw [h x (List.mem_cons_self x xs), ih (fun y hy => h y (List.mem_cons_of_mem x hy))]

lemma sum_map_add_nat {α : Type} (f g : α → ℕ) : ∀ l : List α,
    (l.map (fun i => f i + g i)).sum = (l.map f).sum + (l.map g).sum := by
  intro l
  induction l with
  | nil => simp
  | cons x xs ih =>
    simp only [List.map_cons, List.sum_cons, ih]
    omega

lemma sum_map_le_sum_map {α : Type} (f g : α → ℕ) : ∀ l : List α,
    (∀ i ∈ l, f i ≤ g i) → (l.map f).sum ≤ (l.map g).sum := by
  intro l
  induction l with
  | nil => simp
  | cons x xs ih =>
    intro h
    simp only [List.map_cons, List.sum_cons]
    have h1 := h x (List.mem_cons_self x xs)
    have h2 := ih (fun y hy => h y (List.mem_cons_of_mem x hy))
    omega

lemma sum_indicator_range (j : ℕ) : ∀ n : ℕ, j < n →
    ((List.range n).map (fun i => if j = i then 1 else 0)).sum = 1 := by
  intro n
  induction n with
  | zero => omega
  | succ n ih =>
    intro hj
    rw [List.range_succ, List.map_append, List.sum_append]
    by_cases hjn : j = n
    · subst hjn
      have hz : ((List.range j).map (fun i => if j = i then 1 else 0)).sum = 0 := by
        apply sum_map_eq_zero
        intro i hi
        have : i < j := List.mem_range.mp hi
        simp only [ite_eq_right_iff]
        omega
      rw [hz]
      simp
    · have hj' : j < n := by omega
      rw [ih hj']
      simp [hjn]

lemma sum_length_filter_key {α : Type} (key : α → Option ℕ) (n : ℕ)
    (hbound : ∀ a i, key a = some i → i < n) :
    ∀ l : List α,
      ((List.range n).map (fun i =>
        (l.filter (fun a => decide (key a = some i))).length)).sum
        = (l.filter (fun a => (key a).isSome)).length := by
  intro l
  induction l with
  | nil =>
    rw [List.filter_nil, List.length_nil]
    exact sum_map_eq_zero _ _ (fun i _ => by rw [List.filter_nil]; rfl)
  | cons r l ih =>
    have hsplit : (fun i => (((r :: l).filter (fun a => decide (key a = some i))).length))
        = (fun i => (if key r = some i then 1 else 0)
            + (l.filter (fun a => decide (key a = some i))).length) := by
      funext i
      rw [List.filter_cons]
      by_cases h : key r = some i
      · simp only [h, decide_True, if_true, List.length_cons]
        omega
      · simp [h]
    rw [hsplit, sum_map_add_nat, ih]
    have hind : ((List.range n).map (fun i => if key r = some i then 1 else 0)).sum
        = if (key r).isSome then 1 else 0 := by
      rcases hk : key r with _ | j
      · rw [sum_map_eq_zero _ _ (fun i _ => by simp)]
        rfl
      · have hfun : (fun i => if (some j : Option ℕ) = some i then 1 else 0)
            = (fun i => if j = i then 1 else 0) := by
          funext i
          simp
        rw [hfun, sum_indicator_range j n (hbound r j hk)]
        rfl
    rw [hind, List.filter_cons]
    by_cases h : (key r).isSome
    · simp only [h, if_true, List.length_cons]
      omega
    · simp [h]

lemma length_filter_eq_length_iff {α : Type} (p : α → Bool) : ∀ l : List α,
    ((l.filter p).length = l.length ↔ ∀ a ∈ l, p a = true) := by
  intro l
  induction l with
  | nil => simp
  | cons a l ih =>
    rw [List.filter_cons]
    by_cases h : p a = true
    · simp only [h, if_true, List.length_cons]
      constructor
      · intro hlen b hb
        rcases List.mem_cons.mp hb with rfl | hb
        · exact h
        · exact (ih.mp (Nat.succ_injective hlen)) b hb
      · intro hall
        rw [ih.mpr (fun b hb => hall b (List.mem_cons_of_mem a hb))]
    · have hb : p a = false := by
        cases hpa : p a
        · rfl
        · exact absurd hpa h
      simp only [hb, Bool.false_eq_true, if_false, List.length_cons]
      have hle := List.length_filter_le p l
      constructor
      · intro hlen
        omega
      · intro hall
        exact absurd (hall a (List.mem_cons_self a l)) h

/-! ## Power curve binned aggregation (get_power_curve_data lines 486-509)
and wake-loss sector emission (run_wake_losses_analysis lines 1020-1057). -/

/-- The validity filter
`(P_avg >= 0) & (Ws_avg >= 0) & (Ws_avg <= 30)` (line 486). -/
def validScada (r : ScadaRow) : Bool :=
  decide (0 ≤ r.p) && decide (0 ≤ r.ws) && decide (r.ws ≤ 30)

/-- The rows of wind-speed bin i of the power curve: validity filter, then
`pd.cut` group membership (lines 490-492). -/
def pcBinRows (rows : List ScadaRow) (i : ℕ) : List ScadaRow :=
  (rows.filter validScada).filter
    (fun r => decide (cutIdx wsEdges false r.ws = some i))

/-- One emitted power-curve bucket (lines 502-508; the std and percentile
columns are serialization detail no claim references and are omitted). -/
structure PCBucket where
  windSpeed : ℚ
  powerMean : ℚ
  count : ℕ
deriving DecidableEq

/-- The emitted `measured_curve` buckets: one per wind-speed bin, in bin
order, keeping only buckets whose row count is at least 10 (lines 499-509;
`groupby(..., observed=True)` drops empty bins, which the count threshold
subsumes). -/
def powerCurve (rows : List ScadaRow) : List PCBucket :=
  (List.range (cutBins wsEdges).length).filterMap (fun i =>
    if 10 ≤ (pcBinRows rows i).length then
      some ⟨qmean ((pcBinRows rows i).map ScadaRow.ws),
            qmean ((pcBinRows rows i).map ScadaRow.p),
            (pcBinRows rows i).length⟩
    else none)

/-- The rows of wake direction bin i (lines 1022, 1027). -/
def wakeDirRows (rows : List ScadaRow) (i : ℕ) : List ScadaRow :=
  rows.filter (fun r => decide (cutIdx dirEdges true r.wa = some i))

/-- One emitted wake direction sector (lines 1049-1057; the fields no claim
references are omitted). -/
structure WakeSector where
  dirIdx : ℕ
  wakeLossPct : ℚ
  sampleCount : ℕ
deriving DecidableEq

/-- The emitted `direction_dependent_losses`: a sector is skipped when its
bin holds fewer than 100 rows (line 1028) or at most one turbine
(line 1040). -/
def wakeSectors (rows : List ScadaRow) : List WakeSector :=
  (List.range (cutBins dirEdges).length).filterMap (fun i =>
    if (wakeDirRows rows i).length < 100 then none
    else if 1 < (sectorTurbines (wakeDirRows rows i)).length then
      some ⟨i, sectorWakeLossPct (wakeDirRows rows i), (wakeDirRows rows i).length⟩
    else none)

/-- The power-curve bin key of a row: its wind-speed bin, provided the row
passes the validity filter. -/
def pcKey (r : ScadaRow) : Option ℕ :=
  if validScada r then cutIdx wsEdges false r.ws else none

/-- The bin key restricted to bins that survive the count-10 threshold. -/
def pcEmittedKey (rows : List ScadaRow) (r : ScadaRow) : Option ℕ :=
  (pcKey r).bind (fun i => if 10 ≤ (pcBinRows rows i).length then some i else none)

lemma pcBinRows_eq_filter_key (rows : List ScadaRow) (i : ℕ) :
    pcBinRows rows i = rows.filter (fun r => decide (pcKey r = some i)) := by
  rw [pcBinRows, List.filter_filter]
  apply List.filter_congr
  intro r _
  by_cases h : validScada r
  · simp [pcKey, h]
  · simp [pcKey, h]

lemma pcKey_lt (r : ScadaRow) (i : ℕ) (h : pcKey r = some i) :
    i < (cutBins wsEdges).length := by
  rw [pcKey] at h
  by_cases hv : validScada r
  · rw [if_pos hv] at h
    exact cutIdx_lt_length _ _ _ _ h
  · rw [if_neg hv] at h
    exact absurd h (by simp)

lemma pcEmittedKey_lt (rows : List ScadaRow) (r : ScadaRow) (i : ℕ)
    (h : pcEmittedKey rows r = some i) : i < (cutBins wsEdges).length := by
  rw [pcEmittedKey] at h
  rcases hk : pcKey r with _ | j
  · rw [hk] at h
    exact absurd h (by simp)
  · rw [hk] at h
    simp only [Option.some_bind] at h
    by_cases ht : 10 ≤ (pcBinRows rows j).length
    · rw [if_pos ht] at h
      have hji := Option.some.inj h
      exact hji ▸ pcKey_lt r j hk
    · rw [if_neg ht] at h
      exact absurd h (by simp)

lemma pcEmittedKey_filter_length (rows : List ScadaRow) (i : ℕ) :
    (rows.filter (fun r => decide (pcEmittedKey rows r = some i))).length
      = if 10 ≤ (pcBinRows rows i).length then (pcBinRows rows i).length else 0 := by
  by_cases ht : 10 ≤ (pcBinRows rows i).length
  · rw [if_pos ht]
    rw [pcBinRows_eq_filter_key]
    congr 1
    apply List.filter_congr
    intro r _
    rcases hk : pcKey r with _ | j
    · simp [pcEmittedKey, hk]
    · by_cases hj : j = i
      · subst hj
        simp [pcEmittedKey, hk, ht]
      · simp only [pcEmittedKey, hk, Option.some_bind]
        by_cases ht' : 10 ≤ (pcBinRows rows j).length
        · simp [ht', hj]
        · simp [ht', hj]
  · rw [if_neg ht]
    rw [List.length_eq_zero, List.filter_eq_nil_iff]
    intro r _
    simp only [decide_eq_true_eq]
    intro hcon
    rw [pcEmittedKey] at hcon
    rcases hk : pcKey r with _ | j
    · rw [hk] at hcon
      exact absurd hcon (by simp)
    · rw [hk] at hcon
      simp only [Option.some_bind] at hcon
      by_cases ht' : 10 ≤ (pcBinRows rows j).length
      · rw [if_pos ht'] at hcon
        obtain rfl : j = i := Option.some.inj hcon
        exact ht ht'
      · rw [if_neg ht'] at hcon
        exact absurd hcon (by simp)

/-- The wake direction-bin key restricted to emitted sectors: a row's bin
index survives only when its bin meets the 100-row minimum (line 1028) and
holds more than one turbine (line 1040). -/
def wakeEmittedKey (rows : List ScadaRow) (r : ScadaRow) : Option ℕ :=
  (cutIdx dirEdges true r.wa).bind (fun i =>
    if (wakeDirRows rows i).length < 100 then none
    else if 1 < (sectorTurbines (wakeDirRows rows i)).length then some i
    else none)

lemma wakeEmittedKey_lt (rows : List ScadaRow) (r : ScadaRow) (i : ℕ)
    (h : wakeEmittedKey rows r = some i) : i < (cutBins dirEdges).length := by
  rw [wakeEmittedKey] at h
  rcases hc : cutIdx dirEdges true r.wa with _ | j
  · rw [hc] at h
    exact absurd h (by simp)
  · rw [hc] at h
    simp only [Option.some_bind] at h
    by_cases h1 : (wakeDirRows rows j).length < 100
    · rw [if_pos h1] at h
      exact absurd h (by simp)
    · rw [if_neg h1] at h
      by_cases h2 : 1 < (sectorTurbines (wakeDirRows rows j)).length
      · rw [if_pos h2] at h
        have hji := Option.some.inj h
        exact hji ▸ cutIdx_lt_length dirEdges true r.wa j hc
      · rw [if_neg h2] at h
        exact absurd h (by simp)

lemma wakeEmittedKey_filter_length (rows : List ScadaRow) (i : ℕ) :
    (rows.filter (fun r => decide (wakeEmittedKey rows r = some i))).length
      = if (wakeDirRows rows i).length < 100 then 0
        else if 1 < (sectorTurbines (wakeDirRows rows i)).length then
          (wakeDirRows rows i).length else 0 := by
  by_cases h1 : (wakeDirRows rows i).length < 100
  · rw [if_pos h1, List.length_eq_zero, List.filter_eq_nil_iff]
    intro r _
    simp only [decide_eq_true_eq]
    intro hcon
    rw [wakeEmittedKey] at hcon
    rcases hc : cutIdx dirEdges true r.wa with _ | j
    · rw [hc] at hcon
      exact absurd hcon (by simp)
    · rw [hc] at hcon
      simp only [Option.some_bind] at hcon
      by_cases hj1 : (wakeDirRows rows j).length < 100
      · rw [if_pos hj1] at hcon
        exact absurd hcon (by simp)
      · rw [if_neg hj1] at hcon
        by_cases hj2 : 1 < (sectorTurbines (wakeDirRows rows j)).length
        · rw [if_pos hj2] at hcon
          have hji := Option.some.inj hcon
          subst hji
          exact hj1 h1
        · rw [if_neg hj2] at hcon
          exact absurd hcon (by simp)
  · rw [if_neg h1]
    by_cases h2 : 1 < (sectorTurbines (wakeDirRows rows i)).length
    · rw [if_pos h2, wakeDirRows]
      congr 1
      apply List.filter_congr
      intro r _
      rcases hc : cutIdx dirEdges true r.wa with _ | j
      · simp [wakeEmittedKey, hc]
      · by_cases hj : j = i
        · subst hj
          simp [wakeEmittedKey, hc, h1, h2]
        · simp only [wakeEmittedKey, hc, Option.some_bind]
          by_cases hj1 : (wakeDirRows rows j).length < 100
          · simp [hj1, hj]
          · by_cases hj2 : 1 < (sectorTurbines (wakeDirRows rows j)).length
            · simp [hj1, hj2, hj]
            · simp [hj1, hj2, hj]
    · rw [if_neg h2, List.length_eq_zero, List.filter_eq_nil_iff]
      intro r _
      simp only [decide_eq_true_eq]
      intro hcon
      rw [wakeEmittedKey] at hcon
      rcases hc : cutIdx dirEdges true r.wa with _ | j
      · rw [hc] at hcon
        exact absurd hcon (by simp)
      · rw [hc] at hcon
        simp only [Option.some_bind] at hcon
        by_cases hj1 : (wakeDirRows rows j).length < 100
        · rw [if_pos hj1] at hcon
          exact absurd hcon (by simp)
        · rw [if_neg hj1] at hcon
          by_cases hj2 : 1 < (sectorTurbines (wakeDirRows rows j)).length
          · rw [if_pos hj2] at hcon
            have hji := Option.some.inj hcon
            subst hji
            exact h2 hj2
          · rw [if_neg hj2] at hcon
            exact absurd hcon (by simp)

lemma sum_map_filterMap_count {β : Type} (h : β → ℕ) (g : ℕ → Option β)
    (t : ℕ → ℕ) (hg : ∀ i, (g i).elim 0 h = t i) :
    ∀ l : List ℕ, ((l.filterMap g).map h).sum = (l.map t).sum := by
  intro l
  induction l with
  | nil => simp
  | cons i l ih =>
    rw [List.filterMap_cons]
    rcases hgi : g i with _ | b
    · have := hg i
      rw [hgi] at this
      simp only [Option.elim] at this
      simp only [List.map_cons, List.sum_cons, ← this, ih]
      omega
    · have := hg i
      rw [hgi] at this
      simp only [Option.elim] at this
      simp only [List.map_cons, List.sum_cons, ← this, ih]

/-- Claim C5 as amended: every emitted power-curve bucket has at least 10
samples; the emitted bucket counts of each binned aggregation sum to at
most the input row count; for the power-curve binning equality holds
exactly when every row passes the validity filter, falls in a wind-speed
bin, and its bin survives the count-10 threshold; for the wake binning
equality additionally requires every row's sector to survive the
more-than-one-turbine guard (line 1040) — a sector can meet the 100-row
minimum and still be suppressed when all its rows come from one turbine,
so the original claim's iff, which names only the range-boundary and
minimum-count rules, does not hold there. -/
theorem claim5_bucket_counts_amended (rows : List ScadaRow) :
    (∀ b ∈ powerCurve rows, 10 ≤ b.count) ∧
    ((powerCurve rows).map PCBucket.count).sum ≤ rows.length ∧
    (((powerCurve rows).map PCBucket.count).sum = rows.length ↔
      ∀ r ∈ rows, validScada r = true ∧
        ∃ i, cutIdx wsEdges false r.ws = some i ∧ 10 ≤ (pcBinRows rows i).length) ∧
    ((wakeSectors rows).map WakeSector.sampleCount).sum ≤ rows.length ∧
    (((wakeSectors rows).map WakeSector.sampleCount).sum = rows.length ↔
      ∀ r ∈ rows, ∃ i, cutIdx dirEdges true r.wa = some i ∧
        100 ≤ (wakeDirRows rows i).length ∧
        1 < (sectorTurbines (wakeDirRows rows i)).length) := by
  have hsum : ((powerCurve rows).map PCBucket.count).sum
      = (rows.filter (fun r => (pcEmittedKey rows r).isSome)).length := by
    rw [powerCurve, sum_map_filterMap_count PCBucket.count _
      (fun i => if 10 ≤ (pcBinRows rows i).length then (pcBinRows rows i).length else 0)
      (fun i => by
        by_cases ht : 10 ≤ (pcBinRows rows i).length
        · simp only [if_pos ht]
          rfl
        · simp only [if_neg ht]
          rfl)]
    have hfun : (fun i => if 10 ≤ (pcBinRows rows i).length then (pcBinRows rows i).length else 0)
        = (fun i => (rows.filter (fun r => decide (pcEmittedKey rows r = some i))).length) := by
      funext i
      rw [pcEmittedKey_filter_length]
    rw [hfun]
    exact sum_length_filter_key (pcEmittedKey rows) (cutBins wsEdges).length
      (fun r i h => pcEmittedKey_lt rows r i h) rows
  have hkeyiff : ∀ r : ScadaRow, (pcEmittedKey rows r).isSome = true ↔
      (validScada r = true ∧
        ∃ i, cutIdx wsEdges false r.ws = some i ∧ 10 ≤ (pcBinRows rows i).length) := by
    intro r
    rw [pcEmittedKey, pcKey]
    by_cases hv : validScada r
    · rw [if_pos hv]
      rcases hc : cutIdx wsEdges false r.ws with _ | j
      · simp
      · simp only [Option.some_bind]
        by_cases ht : 10 ≤ (pcBinRows rows j).length
        · simp only [if_pos ht, Option.isSome_some, true_iff]
          exact ⟨hv, j, rfl, ht⟩
        · simp only [if_neg ht, Option.isSome_none]
          constructor
          · intro h
            exact absurd h (by simp)
          · rintro ⟨_, i, hi, hcnt⟩
            obtain rfl : j = i := Option.some.inj hi
            exact absurd hcnt ht
    · rw [if_neg hv]
      simp only [Option.none_bind]
      constructor
      · intro h
        exact absurd h (by simp)
      · rintro ⟨hv', _⟩
        exact absurd hv' (by simpa using hv)
  have hwsum : ((wakeSectors rows).map WakeSector.sampleCount).sum
      = (rows.filter (fun r => (wakeEmittedKey rows r).isSome)).length := by
    rw [wakeSectors, sum_map_filterMap_count WakeSector.sampleCount _
      (fun i => if (wakeDirRows rows i).length < 100 then 0
        else if 1 < (sectorTurbines (wakeDirRows rows i)).length then
          (wakeDirRows rows i).length else 0)
      (fun i => by
        by_cases h1 : (wakeDirRows rows i).length < 100
        · simp only [if_pos h1]
          rfl
        · simp only [if_neg h1]
          by_cases h2 : 1 < (sectorTurbines (wakeDirRows rows i)).length
          · simp only [if_pos h2]
            rfl
          · simp only [if_neg h2]
            rfl)]
    have hfun : (fun i => if (wakeDirRows rows i).length < 100 then 0
        else if 1 < (sectorTurbines (wakeDirRows rows i)).length then
          (wakeDirRows rows i).length else 0)
        = (fun i => (rows.filter
            (fun r => decide (wakeEmittedKey rows r = some i))).length) := by
      funext i
      rw [wakeEmittedKey_filter_length]
    rw [hfun]
    exact sum_length_filter_key (wakeEmittedKey rows) (cutBins dirEdges).length
      (fun r i h => wakeEmittedKey_lt rows r i h) rows
  have hwkeyiff : ∀ r : ScadaRow, (wakeEmittedKey rows r).isSome = true ↔
      ∃ i, cutIdx dirEdges true r.wa = some i ∧
        100 ≤ (wakeDirRows rows i).length ∧
        1 < (sectorTurbines (wakeDirRows rows i)).length := by
    intro r
    rw [wakeEmittedKey]
    rcases hc : cutIdx dirEdges true r.wa with _ | j
    · simp
    · simp only [Option.some_bind]
      by_cases h1 : (wakeDirRows rows j).length < 100
      · rw [if_pos h1]
        constructor
        · intro h
          exact absurd h (by simp)
        · rintro ⟨i, hi, hcnt, _⟩
          obtain rfl : j = i := Option.some.inj hi
          exact absurd hcnt (by omega)
      · rw [if_neg h1]
        by_cases h2 : 1 < (sectorTurbines (wakeDirRows rows j)).length
        · rw [if_pos h2]
          simp only [Option.isSome_some, true_iff]
          exact ⟨j, rfl, le_of_not_lt h1, h2⟩
        · rw [if_neg h2]
          constructor
          · intro h
            exact absurd h (by simp)
          · rintro ⟨i, hi, _, htb⟩
            obtain rfl : j = i := Option.some.inj hi
            exact absurd htb h2
  refine ⟨?_, ?_, ?_, ?_, ?_⟩
  · intro b hb
    rw [powerCurve] at hb
    obtain ⟨i, _, hi⟩ := List.mem_filterMap.mp hb
    by_cases ht : 10 ≤ (pcBinRows rows i).length
    · rw [if_pos ht] at hi
      have hb := Option.some.inj hi
      rw [← hb]
      exact ht
    · rw [if_neg ht] at hi
      exact absurd hi (by simp)
  · rw [hsum]
    exact List.length_filter_le _ rows
  · rw [hsum, length_filter_eq_length_iff]
    constructor
    · intro h r hr
      exact (hkeyiff r).mp (h r hr)
    · intro h r hr
      exact (hkeyiff r).mpr (h r hr)
  · rw [hwsum]
    exact List.length_filter_le _ rows
  · rw [hwsum, length_filter_eq_length_iff]
    constructor
    · intro h r hr
      exact (hwkeyiff r).mp (h r hr)
    · intro h r hr
      exact (hwkeyiff r).mpr (h r hr)

/-- Witness for the amended claim C5 at the empty input: the emitted bucket
counts sum to at most the input row count. -/
theorem claim5_bucket_counts_amended_witness :
    ((powerCurve []).map PCBucket.count).sum ≤ ([] : List ScadaRow).length :=
  (claim5_bucket_counts_amended []).2.1

/-! ## A concrete emitted wake sector with out-of-range loss (claim C3) -/

/-- A direction sector the wake calculator emits: 100 rows at direction
15° (all in direction bin 0), 50 rows of turbine A at mean power +1 kW and
50 rows of turbine B at mean power -1 kW, all at zero wind speed, so the
normalized powers are 10 and -10. -/
def wakeCexRows : List ScadaRow :=
  List.replicate 50 ⟨0, "A", 1, 0, 15, 0⟩ ++ List.replicate 50 ⟨0, "B", -1, 0, 15, 0⟩

lemma cutIdx_dir_fifteen : cutIdx dirEdges true 15 = some 0 := by decide

lemma wakeCex_wa (r : ScadaRow) (hr : r ∈ wakeCexRows) : r.wa = 15 := by
  rcases List.mem_append.mp hr with h | h <;> rw [List.eq_of_mem_replicate h]

lemma wakeDirRows_cex_zero : wakeDirRows wakeCexRows 0 = wakeCexRows := by
  rw [wakeDirRows]
  apply List.filter_eq_self.mpr
  intro r hr
  simp [wakeCex_wa r hr, cutIdx_dir_fifteen]

lemma wakeDirRows_cex_pos (i : ℕ) (hi : i ≠ 0) : wakeDirRows wakeCexRows i = [] := by
  rw [wakeDirRows]
  apply List.filter_eq_nil_iff.mpr
  intro r hr
  simp only [wakeCex_wa r hr, cutIdx_dir_fifteen, decide_eq_true_eq]
  intro hcon
  exact hi (Option.some.inj hcon).symm

set_option maxRecDepth 8000 in
lemma turbineRows_cex_A :
    turbineRows wakeCexRows "A" = List.replicate 50 ⟨0, "A", 1, 0, 15, 0⟩ := by
  decide

set_option maxRecDepth 8000 in
lemma turbineRows_cex_B :
    turbineRows wakeCexRows "B" = List.replicate 50 ⟨0, "B", -1, 0, 15, 0⟩ := by
  decide

set_option maxRecDepth 8000 in
lemma sectorTurbines_cex : sectorTurbines wakeCexRows = ["A", "B"] := by
  decide

set_option maxRecDepth 8000 in
lemma wakeCexRows_length : wakeCexRows.length = 100 := by
  decide

lemma sectorWakeLossPct_cex : sectorWakeLossPct wakeCexRows = 100 := by
  have hA : normalizedPower wakeCexRows "A" = 10 := by
    rw [normalizedPower, turbineMeanP, turbineMeanWs, turbineRows_cex_A]
    norm_num [qmean, List.map_replicate, List.sum_replicate]
  have hB : normalizedPower wakeCexRows "B" = -10 := by
    rw [normalizedPower, turbineMeanP, turbineMeanWs, turbineRows_cex_B]
    norm_num [qmean, List.map_replicate, List.sum_replicate]
  have hnorms : sectorNorms wakeCexRows = [10, -10] := by
    rw [sectorNorms, sectorTurbines_cex]
    simp [hA, hB]
  rw [sectorWakeLossPct, hnorms]
  norm_num [listMax, qmean]

/-- Counterexample to claim C3 as stated: the wake calculator emits this
sector (100 rows, two turbines), and its wake-loss percentage is exactly
100, which does not lie in the claimed interval [0, 100). -/
theorem claim3_wake_loss_counterexample :
    wakeSectors wakeCexRows = [⟨0, 100, 100⟩] ∧
    ¬ (⟨0, 100, 100⟩ : WakeSector).wakeLossPct < 100 := by
  constructor
  · rw [wakeSectors]
    rw [show (cutBins dirEdges).length = 12 from rfl]
    rw [show List.range 12 = [0, 1, 2, 3, 4, 5, 6, 7, 8, 9, 10, 11] by decide]
    norm_num [List.filterMap_cons, wakeDirRows_cex_zero, wakeCexRows_length,
      sectorTurbines_cex, sectorWakeLossPct_cex,
      wakeDirRows_cex_pos 1 (by decide), wakeDirRows_cex_pos 2 (by decide),
      wakeDirRows_cex_pos 3 (by decide), wakeDirRows_cex_pos 4 (by decide),
      wakeDirRows_cex_pos 5 (by decide), wakeDirRows_cex_pos 6 (by decide),
      wakeDirRows_cex_pos 7 (by decide), wakeDirRows_cex_pos 8 (by decide),
      wakeDirRows_cex_pos 9 (by decide), wakeDirRows_cex_pos 10 (by decide),
      wakeDirRows_cex_pos 11 (by decide)]
  · norm_num

/-! ## A suppressed wake sector outside the claimed counting rules
(claim C5) -/

/-- A wake input of 100 rows of a single turbine, all at direction 15°:
every row lands in direction bin 0, which meets the 100-row minimum, yet
the sector is suppressed by the more-than-one-turbine guard. -/
def wakeSingleRows : List ScadaRow :=
  List.replicate 100 ⟨0, "A", 1, 0, 15, 0⟩

lemma wakeSingle_wa (r : ScadaRow) (hr : r ∈ wakeSingleRows) : r.wa = 15 := by
  rw [List.eq_of_mem_replicate hr]

lemma wakeDirRows_single_zero : wakeDirRows wakeSingleRows 0 = wakeSingleRows := by
  rw [wakeDirRows]
  apply List.filter_eq_self.mpr
  intro r hr
  simp [wakeSingle_wa r hr, cutIdx_dir_fifteen]

lemma wakeDirRows_single_pos (i : ℕ) (hi : i ≠ 0) :
    wakeDirRows wakeSingleRows i = [] := by
  rw [wakeDirRows]
  apply List.filter_eq_nil_iff.mpr
  intro r hr
  simp only [wakeSingle_wa r hr, cutIdx_dir_fifteen, decide_eq_true_eq]
  intro hcon
  exact hi (Option.some.inj hcon).symm

set_option maxRecDepth 8000 in
lemma sectorTurbines_single : sectorTurbines wakeSingleRows = ["A"] := by
  decide

set_option maxRecDepth 8000 in
lemma wakeSingleRows_length : wakeSingleRows.length = 100 := by
  decide

/-- Counterexample to claim C5 as stated: on this input no row is dropped
by the range-boundary rule (direction bin 0 holds all 100 rows) and no
sector falls below the 100-row minimum, yet the single-turbine guard
suppresses the only sector, so the emitted sample counts sum to 0, not to
the 100-row input count — the claimed equality-iff names neither rule
that fired. -/
theorem claim5_bucket_counts_counterexample :
    (wakeDirRows wakeSingleRows 0).length = wakeSingleRows.length ∧
    ¬ (wakeDirRows wakeSingleRows 0).length < 100 ∧
    wakeSectors wakeSingleRows = [] ∧
    ((wakeSectors wakeSingleRows).map WakeSector.sampleCount).sum
      ≠ wakeSingleRows.length := by
  have hsec : wakeSectors wakeSingleRows = [] := by
    rw [wakeSectors]
    rw [show (cutBins dirEdges).length = 12 from rfl]
    rw [show List.range 12 = [0, 1, 2, 3, 4, 5, 6, 7, 8, 9, 10, 11] by decide]
    norm_num [List.filterMap_cons, wakeDirRows_single_zero, wakeSingleRows_length,
      sectorTurbines_single,
      wakeDirRows_single_pos 1 (by decide), wakeDirRows_single_pos 2 (by decide),
      wakeDirRows_single_pos 3 (by decide), wakeDirRows_single_pos 4 (by decide),
      wakeDirRows_single_pos 5 (by decide), wakeDirRows_single_pos 6 (by decide),
      wakeDirRows_single_pos 7 (by decide), wakeDirRows_single_pos 8 (by decide),
      wakeDirRows_single_pos 9 (by decide), wakeDirRows_single_pos 10 (by decide),
      wakeDirRows_single_pos 11 (by decide)]
  refine ⟨by rw [wakeDirRows_single_zero], ?_, hsec, ?_⟩
  · rw [wakeDirRows_single_zero, wakeSingleRows_length]
    norm_num
  · rw [hsec, wakeSingleRows_length]
    norm_num

/-! ## Algebra of the correction factor (run_aep_analysis lines 857-858) -/

lemma corrFactor_pos_eq (op ltm : ℝ) (hop : 0 < op) :
    corrFactor op ltm = (ltm / op) ^ ((5 : ℝ) / 2) := by
  rw [corrFactor, if_pos hop]

lemma rpow_five_half_sq (r : ℝ) (hr : 0 ≤ r) :
    (r ^ ((5 : ℝ) / 2)) ^ (2 : ℕ) = r ^ (5 : ℕ) := by
  rw [← Real.rpow_natCast (r ^ ((5 : ℝ) / 2)) 2, ← Real.rpow_mul hr,
    ← Real.rpow_natCast r 5]
  norm_num

lemma rpow_five_half_lt_iff (a b : ℝ) (ha : 0 ≤ a) (hb : 0 ≤ b) :
    a ^ ((5 : ℝ) / 2) < b ^ ((5 : ℝ) / 2) ↔ a < b := by
  constructor
  · intro h
    by_contra hab
    push_neg at hab
    rcases eq_or_lt_of_le hab with rfl | hlt
    · exact lt_irrefl _ h
    · exact absurd (Real.rpow_lt_rpow hb hlt (by norm_num)) (not_lt.mpr (le_of_lt h))
  · intro h
    exact Real.rpow_lt_rpow ha h (by norm_num)

lemma corrFactor_six_eq : corrFactor 6 (13 / 2) = ((13 : ℝ) / 12) ^ ((5 : ℝ) / 2) := by
  rw [corrFactor_pos_eq 6 (13 / 2) (by norm_num)]
  norm_num

lemma corrFactor_six_sq :
    corrFactor 6 (13 / 2) ^ (2 : ℕ) = ((13 : ℝ) / 12) ^ (5 : ℕ) := by
  rw [corrFactor_six_eq]
  exact rpow_five_half_sq _ (by norm_num)

lemma corrFactor_six_nonneg : 0 ≤ corrFactor 6 (13 / 2) := by
  rw [corrFactor_six_eq]
  exact Real.rpow_nonneg (by norm_num) _

lemma corrFactor_six_lower : (122 / 100 : ℝ) < corrFactor 6 (13 / 2) := by
  have h2 : ((122 : ℝ) / 100) ^ (2 : ℕ) < corrFactor 6 (13 / 2) ^ (2 : ℕ) := by
    rw [corrFactor_six_sq]
    norm_num
  exact lt_of_pow_lt_pow_left₀ 2 corrFactor_six_nonneg h2

lemma corrFactor_six_upper : corrFactor 6 (13 / 2) < (123 / 100 : ℝ) := by
  have h2 : corrFactor 6 (13 / 2) ^ (2 : ℕ) < ((123 : ℝ) / 100) ^ (2 : ℕ) := by
    rw [corrFactor_six_sq]
    norm_num
  exact lt_of_pow_lt_pow_left₀ 2 (by norm_num) h2

/-- Counterexample to claim C6's example value: with operational mean 6 m/s
and long-term mean 6.5 m/s the factor (13/12)^2.5 exceeds 1.21 (it is
about 1.2216), so it is not approximately 1.196. -/
theorem claim6_example_counterexample :
    (121 / 100 : ℝ) < corrFactor 6 (13 / 2) ∧
    corrFactor 6 (13 / 2) ≠ (1196 / 1000 : ℝ) := by
  have h1 : (121 / 100 : ℝ) < corrFactor 6 (13 / 2) :=
    lt_trans (by norm_num) corrFactor_six_lower
  have h2 : (1196 / 1000 : ℝ) < corrFactor 6 (13 / 2) :=
    lt_trans (by norm_num) corrFactor_six_lower
  exact ⟨h1, ne_of_gt h2⟩

/-- Claim C6 as amended: for positive operational and long-term means the
correction factor equals 1 exactly when the means are equal, exceeds 1
exactly when the long-term mean exceeds the operational mean, and is
strictly increasing in the ratio long_term/operational; the example with
means 6 and 6.5 m/s gives the factor whose square is (13/12)^5, namely
about 1.222 (between 1.22 and 1.23), not 1.196. -/
theorem claim6_correction_monotone_amended (op ltm : ℝ) (hop : 0 < op)
    (hltm : 0 < ltm) :
    (corrFactor op ltm = 1 ↔ op = ltm) ∧
    (1 < corrFactor op ltm ↔ op < ltm) ∧
    (∀ op2 ltm2 : ℝ, 0 < op2 → ltm / op < ltm2 / op2 →
      corrFactor op ltm < corrFactor op2 ltm2) ∧
    corrFactor 6 (13 / 2) ^ (2 : ℕ) = ((13 : ℝ) / 12) ^ (5 : ℕ) ∧
    (122 / 100 : ℝ) < corrFactor 6 (13 / 2) ∧
    corrFactor 6 (13 / 2) < (123 / 100 : ℝ) := by
  have hr : 0 < ltm / op := div_pos hltm hop
  have hone : (1 : ℝ) = (1 : ℝ) ^ ((5 : ℝ) / 2) := (Real.one_rpow _).symm
  have hlt_iff : ∀ a b : ℝ, 0 ≤ a → 0 ≤ b →
      (a ^ ((5 : ℝ) / 2) < b ^ ((5 : ℝ) / 2) ↔ a < b) := rpow_five_half_lt_iff
  refine ⟨?_, ?_, ?_, corrFactor_six_sq, corrFactor_six_lower, corrFactor_six_upper⟩
  · rw [corrFactor_pos_eq op ltm hop]
    constructor
    · intro h
      have hnot1 : ¬ ltm / op < 1 := by
        intro hcon
        have := (hlt_iff (ltm / op) 1 (le_of_lt hr) (by norm_num)).mpr hcon
        rw [← hone] at this
        exact absurd h (ne_of_lt this)
      have hnot2 : ¬ 1 < ltm / op := by
        intro hcon
        have := (hlt_iff 1 (ltm / op) (by norm_num) (le_of_lt hr)).mpr hcon
        rw [← hone] at this
        exact absurd h (ne_of_gt this)
      have hr1 : ltm / op = 1 := le_antisymm (not_lt.mp hnot2) (not_lt.mp hnot1)
      have := (div_eq_one_iff_eq (ne_of_gt hop)).mp hr1
      exact this.symm
    · intro h
      subst h
      rw [div_self (ne_of_gt hop), Real.one_rpow]
  · rw [corrFactor_pos_eq op ltm hop]
    constructor
    · intro h
      rw [hone] at h
      have := (hlt_iff 1 (ltm / op) (by norm_num) (le_of_lt hr)).mp h
      exact (one_lt_div hop).mp this
    · intro h
      have h1 : 1 < ltm / op := (one_lt_div hop).mpr h
      have := (hlt_iff 1 (ltm / op) (by norm_num) (le_of_lt hr)).mpr h1
      rw [← hone] at this
      exact this
  · intro op2 ltm2 hop2 hratio
    have hr2 : (0 : ℝ) ≤ ltm2 / op2 := le_trans (le_of_lt hr) (le_of_lt hratio)
    rw [corrFactor_pos_eq op ltm hop, corrFactor_pos_eq op2 ltm2 hop2]
    exact (hlt_iff (ltm / op) (ltm2 / op2) (le_of_lt hr) hr2).mpr hratio

/-- Witness for the amended claim C6 at the spec's example means: the
factor for means 6 and 6.5 m/s exceeds 1 exactly because 6 < 6.5. -/
theorem claim6_correction_monotone_amended_witness :
    1 < corrFactor 6 (13 / 2) ↔ (6 : ℝ) < 13 / 2 :=
  (claim6_correction_monotone_amended 6 (13 / 2) (by norm_num) (by norm_num)).2.1

/-! ## Static yaw misalignment (run_yaw_misalignment_analysis lines
1179-1268) -/

/-- The per-turbine operating filter: rows of turbine t with
`P_avg > 100` and `5 <= Ws_avg <= 10` (lines 1187-1190). -/
def yawFiltered (rows : List ScadaRow) (t : String) : List ScadaRow :=
  (rows.filter (fun r => decide (r.turbine = t))).filter
    (fun r => decide (100 < r.p) && decide (5 ≤ r.ws) && decide (r.ws ≤ 10))

/-- `np.arange(-30, 31, 2)` (line 1197): the vane-angle bin edges. -/
def vaneEdges : List ℚ :=
  [-30, -28, -26, -24, -22, -20, -18, -16, -14, -12, -10, -8, -6, -4, -2, 0,
   2, 4, 6, 8, 10, 12, 14, 16, 18, 20, 22, 24, 26, 28, 30]

/-- The rows of vane-angle bin i of one turbine (line 1198). -/
def vaneBinRows (rows : List ScadaRow) (t : String) (i : ℕ) : List ScadaRow :=
  (yawFiltered rows t).filter
    (fun r => decide (cutIdx vaneEdges false r.va = some i))

/-- One vane-angle bin aggregate (lines 1200-1205). -/
structure VaneBin where
  powerMean : ℚ
  binCount : ℕ
  vaneMean : ℚ
  wsMean : ℚ
deriving DecidableEq

/-- The `vane_power` table: one aggregate per vane bin, in bin order,
keeping only bins with at least 50 rows (line 1206). -/
def vaneBins (rows : List ScadaRow) (t : String) : List VaneBin :=
  (List.range (cutBins vaneEdges).length).filterMap (fun i =>
    if 50 ≤ (vaneBinRows rows t i).length then
      some ⟨qmean ((vaneBinRows rows t i).map ScadaRow.p),
            (vaneBinRows rows t i).length,
            qmean ((vaneBinRows rows t i).map ScadaRow.va),
            qmean ((vaneBinRows rows t i).map ScadaRow.ws)⟩
    else none)

/-- `norm_power = power_mean / (ws_mean ** 3 + 0.1)` (line 1211). -/
def vaneNormPower (b : VaneBin) : ℚ := b.powerMean / (b.wsMean ^ 3 + 1 / 10)

/-- pandas `idxmax`: the first element attaining the maximum of f. -/
def argmaxBy {α : Type} (f : α → ℚ) : List α → Option α
  | [] => none
  | b :: bs => some (bs.foldl (fun acc y => if f acc < f y then y else acc) b)

/-- The reported `yaw_misalignment_deg` of one turbine, before output
rounding: turbines with fewer than 1000 filtered rows (line 1192) or at
most 3 surviving vane bins (line 1209) are skipped, otherwise the result
is the negated mean vane angle of the bin with maximal normalized power
(lines 1212-1216). -/
def yawMisalignment (rows : List ScadaRow) (t : String) : Option ℚ :=
  if (yawFiltered rows t).length < 1000 then none
  else if 3 < (vaneBins rows t).length then
    (argmaxBy vaneNormPower (vaneBins rows t)).map (fun b => -(b.vaneMean))
  else none

lemma foldl_argmax_spec {α : Type} (f : α → ℚ) (b : α) : ∀ bs : List α,
    (bs.foldl (fun acc y => if f acc < f y then y else acc) b) ∈ b :: bs ∧
    f b ≤ f (bs.foldl (fun acc y => if f acc < f y then y else acc) b) ∧
    ∀ y ∈ bs, f y ≤ f (bs.foldl (fun acc y => if f acc < f y then y else acc) b) := by
  intro bs
  induction bs generalizing b with
  | nil => exact ⟨List.mem_cons_self b [], le_refl _, by intro y hy; simp at hy⟩
  | cons y bs ih =>
    obtain ⟨hmem, hacc, hall⟩ := ih (if f b < f y then y else b)
    rw [List.foldl_cons]
    have hb : f b ≤ f (if f b < f y then y else b) := by
      by_cases h : f b < f y
      · rw [if_pos h]; exact le_of_lt h
      · rw [if_neg h]
    have hy : f y ≤ f (if f b < f y then y else b) := by
      by_cases h : f b < f y
      · rw [if_pos h]
      · rw [if_neg h]; exact le_of_not_lt h
    refine ⟨?_, le_trans hb hacc, ?_⟩
    · rcases List.mem_cons.mp hmem with h | h
      · rw [h]
        by_cases hc : f b < f y
        · rw [if_pos hc]
          exact List.mem_cons_of_mem _ (List.mem_cons_self y bs)
        · rw [if_neg hc]
          exact List.mem_cons_self b _
      · exact List.mem_cons_of_mem _ (List.mem_cons_of_mem _ h)
    · intro z hz
      rcases List.mem_cons.mp hz with rfl | hz
      · exact le_trans hy hacc
      · exact hall z hz

/-- Claim C7: a turbine whose filtered sample count is below the
1000-row floor is skipped (not analyzed); every reported misalignment is
the negated mean vane angle of a surviving vane bin whose normalized
power is maximal among the surviving bins. -/
theorem claim7_yaw (rows : List ScadaRow) (t : String) :
    ((yawFiltered rows t).length < 1000 → yawMisalignment rows t = none) ∧
    (∀ m, yawMisalignment rows t = some m →
      1000 ≤ (yawFiltered rows t).length ∧
      ∃ b ∈ vaneBins rows t, m = -(b.vaneMean) ∧
        ∀ c ∈ vaneBins rows t, vaneNormPower c ≤ vaneNormPower b) := by
  constructor
  · intro h
    rw [yawMisalignment, if_pos h]
  · intro m hm
    rw [yawMisalignment] at hm
    by_cases h1 : (yawFiltered rows t).length < 1000
    · rw [if_pos h1] at hm
      exact absurd hm (by simp)
    · rw [if_neg h1] at hm
      refine ⟨le_of_not_lt h1, ?_⟩
      by_cases h2 : 3 < (vaneBins rows t).length
      · rw [if_pos h2] at hm
        rcases hbins : vaneBins rows t with _ | ⟨b, bs⟩
        · rw [hbins] at h2
          exact absurd h2 (by simp)
        · rw [hbins] at hm
          rw [argmaxBy] at hm
          simp only [Option.map_some'] at hm
          obtain ⟨hmem, hfb, hall⟩ := foldl_argmax_spec vaneNormPower b bs
          refine ⟨_, hmem, ?_, ?_⟩
          · exact (Option.some.inj hm).symm
          · intro c hc
            rcases List.mem_cons.mp hc with rfl | hc
            · exact hfb
            · exact hall c hc
      · rw [if_neg h2] at hm
        exact absurd hm (by simp)

/-- Witness for claim C7: on an empty table every turbine is below the
1000-row floor and is skipped. -/
theorem claim7_yaw_witness : yawMisalignment [] "R80711" = none :=
  (claim7_yaw [] "R80711").1 (by simp [yawFiltered])

/-! ## Loader error handling (load_scada_data lines 88-98) -/

/-- The loader's error kinds: a missing backing file versus a present but
malformed file. -/
inductive LoadError where
  | notFound
  | malformed
deriving DecidableEq

/-- A raw CSV file as handed to the loader by the tabular reader: whether
the expected `Date_time` column is present, and the raw timestamp strings
of its rows. -/
structure RawCsv where
  hasDateTimeCol : Bool
  dateTimeCells : List String
deriving DecidableEq

/-- `load_scada_data`, over an abstract filesystem (`none` = the backing
file is absent) and an abstract timestamp parser.  The missing-file branch
raises `FileNotFoundError` (lines 91-92, modelled as `LoadError.notFound`).
Modelled from the spec: for a file that is present, the external
tabular-reader contract of spec section 6 and the `MalformedDataError` of
spec section 7 — a present file without the expected column fails with the
distinct malformed error (in the code this surfaces as the KeyError of
`df['Date_time']`), while `pd.to_datetime(..., errors='coerce')` (line 95)
turns each unparseable timestamp into a sentinel (`none`) without aborting
the load of the remaining rows. -/
def load_scada_model (parseTs : String → Option ℚ) (file : Option RawCsv) :
    Except LoadError (List (Option ℚ)) :=
  match file with
  | none => Except.error LoadError.notFound
  | some csv =>
    if csv.hasDateTimeCol then Except.ok (csv.dateTimeCells.map parseTs)
    else Except.error LoadError.malformed

/-- Claim C8: the loader returns the not-found error exactly when the
backing file is absent; that error is distinct from the malformed error;
and a present file with the expected column always loads, each
unparseable timestamp becoming the sentinel `none` in the returned
column rather than aborting the load. -/
theorem claim8_loader_errors (parseTs : String → Option ℚ) (file : Option RawCsv) :
    (load_scada_model parseTs file = Except.error LoadError.notFound ↔ file = none) ∧
    (∀ csv, file = some csv → csv.hasDateTimeCol = true →
      load_scada_model parseTs file = Except.ok (csv.dateTimeCells.map parseTs)) ∧
    LoadError.notFound ≠ LoadError.malformed := by
  refine ⟨?_, ?_, by decide⟩
  · rcases file with _ | csv
    · simp [load_scada_model]
    · simp only [load_scada_model]
      by_cases h : csv.hasDateTimeCol
      · simp [h]
      · simp [h]
  · intro csv hf hcol
    subst hf
    simp [load_scada_model, hcol]

/-- Witness for claim C8: an absent file loads as the not-found error, and
a present one-column file with one bad timestamp loads with a sentinel. -/
theorem claim8_loader_errors_witness :
    load_scada_model (fun _ => none) none = Except.error LoadError.notFound ∧
    load_scada_model (fun _ => none) (some ⟨true, ["bad"]⟩)
      = Except.ok [none] :=
  ⟨(claim8_loader_errors (fun _ => none) none).1.mpr rfl,
   (claim8_loader_errors (fun _ => none) (some ⟨true, ["bad"]⟩)).2.1
     ⟨true, ["bad"]⟩ rfl rfl⟩

/-! ## The analysis results, their determinism, and the unused parameters
(run_analysis lines 786-827; analysis implementations lines 833-1361).
Each result structure is scoped to the numeric core the claims reference;
serialization-only fields (labels, hardcoded constants, rounding) are not
modelled. -/

/-- The tables an analysis reads through get_cached_data. -/
structure Tables where
  scada : List ScadaRow
  plant : List PlantRow
  era5 : List ReanRow

/-- `request.parameters`: an opaque key-value mapping.  None of the six
analysis implementations reads it. -/
def Params := List (String × String)

/-- `date_range.days / 365.25` (lines 844-846, 1276-1277): timestamps sit
on a day-unit axis and `.days` truncates the span to whole days. -/
def scadaYears (scada : List ScadaRow) : ℚ :=
  ((Int.floor (listMax (scada.map ScadaRow.dateTime)
    - listMin (scada.map ScadaRow.dateTime)) : ℤ) : ℚ) / (1461 / 4)

/-- The numeric core of run_aep_analysis (lines 833-931): the (bare-sum)
total energy, the operational-window and long-term reanalysis means over
the SCADA period, and the long-term correction factor. -/
structure AepResults where
  totalEnergyKwh : ℚ
  operationalWindSpeed : ℚ
  longTermWindSpeed : ℚ
  correctionFactor : ℝ

noncomputable def runAepAnalysis (params : Params) (t : Tables) : AepResults :=
  { totalEnergyKwh := aepTotalEnergyKwh t.scada
    operationalWindSpeed := opPeriodWs t.era5
      (listMin (t.scada.map ScadaRow.dateTime))
      (listMax (t.scada.map ScadaRow.dateTime))
    longTermWindSpeed := ltmWs t.era5
    correctionFactor := ltmCorrectionFactor t.era5
      (listMin (t.scada.map ScadaRow.dateTime))
      (listMax (t.scada.map ScadaRow.dateTime)) }

/-- The numeric core of run_electrical_losses_analysis (lines 933-1008):
total turbine energy, meter energy, and the loss with its percentage,
both zero when the turbine energy is not positive (lines 947-952). -/
structure ElecResults where
  turbineEnergyKwh : ℚ
  meterEnergyKwh : ℚ
  lossKwh : ℚ
  lossPercent : ℚ
deriving DecidableEq

def runElectricalLossesAnalysis (params : Params) (t : Tables) : ElecResults :=
  let te := elecTurbineEnergyKwh t.scada
  let me := (t.plant.map PlantRow.netEnergyKwh).sum
  if 0 < te then ⟨te, me, te - me, (te - me) / te * 100⟩
  else ⟨te, me, 0, 0⟩

/-- The numeric core of run_wake_losses_analysis (lines 1010-1101): the
emitted sectors and the sample-weighted overall loss (lines 1060-1064). -/
structure WakeResults where
  sectors : List WakeSector
  overallLossPercent : ℚ
deriving DecidableEq

def runWakeLossesAnalysis (params : Params) (t : Tables) : WakeResults :=
  let ds := wakeSectors t.scada
  ⟨ds, if ds = [] then 0
    else (ds.map (fun d => d.wakeLossPct * (d.sampleCount : ℚ))).sum
      / ((ds.map WakeSector.sampleCount).sum : ℚ)⟩

/-- The numeric core of run_turbine_gross_energy_analysis (lines
1103-1177): the long-term adjustment block (lines 1112-1119). -/
structure GrossResults where
  operationalWindSpeed : ℚ
  longTermWindSpeed : ℚ
  correctionFactor : ℝ

noncomputable def runTurbineGrossEnergyAnalysis (params : Params) (t : Tables) :
    GrossResults :=
  { operationalWindSpeed := opPeriodWs t.era5
      (listMin (t.scada.map ScadaRow.dateTime))
      (listMax (t.scada.map ScadaRow.dateTime))
    longTermWindSpeed := ltmWs t.era5
    correctionFactor := ltmCorrectionFactor t.era5
      (listMin (t.scada.map ScadaRow.dateTime))
      (listMax (t.scada.map ScadaRow.dateTime)) }

/-- The numeric core of run_yaw_misalignment_analysis (lines 1179-1268):
per analyzed turbine, the reported misalignment (skipped turbines are
omitted from the list). -/
def runYawMisalignmentAnalysis (params : Params) (t : Tables) :
    List (String × ℚ) :=
  ((t.scada.map ScadaRow.turbine).dedup).filterMap (fun tb =>
    (yawMisalignment t.scada tb).map (fun m => (tb, m)))

/-- The numeric core of run_eya_gap_analysis (lines 1270-1361): annualized
turbine and meter energy (GWh) and the electrical-loss gap, floored at 0
(lines 1280-1289). -/
structure EyaResults where
  turbineEnergyGwh : ℚ
  meterEnergyGwh : ℚ
  elecLossGwh : ℚ
deriving DecidableEq

def runEyaGapAnalysis (params : Params) (t : Tables) : EyaResults :=
  let years := scadaYears t.scada
  let te := elecTurbineEnergyKwh t.scada / 1000000 / years
  let me := (t.plant.map PlantRow.netEnergyKwh).sum / 1000000 / years
  ⟨te, me, if me < te then te - me else 0⟩

/-- The union of the six analyses' results. -/
inductive AnalysisResults where
  | aep : AepResults → AnalysisResults
  | elec : ElecResults → AnalysisResults
  | wake : WakeResults → AnalysisResults
  | gross : GrossResults → AnalysisResults
  | yaw : List (String × ℚ) → AnalysisResults
  | eya : EyaResults → AnalysisResults

/-- The run_analysis dispatch on `analysis_type` (lines 795-812); an
unknown type yields no results (HTTP 400). -/
noncomputable def runAnalysisResults (analysisType : String) (params : Params)
    (t : Tables) : Option AnalysisResults :=
  if analysisType = "monte_carlo_aep" ∨ analysisType = "aep" then
    some (AnalysisResults.aep (runAepAnalysis params t))
  else if analysisType = "electrical_losses" then
    some (AnalysisResults.elec (runElectricalLossesAnalysis params t))
  else if analysisType = "wake_losses" then
    some (AnalysisResults.wake (runWakeLossesAnalysis params t))
  else if analysisType = "turbine_gross_energy" then
    some (AnalysisResults.gross (runTurbineGrossEnergyAnalysis params t))
  else if analysisType = "yaw_misalignment" then
    some (AnalysisResults.yaw (runYawMisalignmentAnalysis params t))
  else if analysisType = "eya_gap" then
    some (AnalysisResults.eya (runEyaGapAnalysis params t))
  else none

/-- The AnalysisResponse envelope (lines 792, 814-823): the wall clock is
read at request start (`startTime`) and at response creation (`endTime`),
the latter providing the injected timestamp and, with the former, the
execution time. -/
structure Envelope (R : Type) where
  status : String
  results : R
  timestamp : ℚ
  executionTimeSeconds : ℚ

noncomputable def runAnalysisEnvelope (analysisType : String) (params : Params)
    (t : Tables) (startTime endTime : ℚ) : Option (Envelope AnalysisResults) :=
  (runAnalysisResults analysisType params t).map (fun r =>
    ⟨"success", r, endTime, endTime - startTime⟩)

def emptyTables : Tables := ⟨[], [], []⟩

/-- Counterexample to claim C9 as stated: two runs of the AEP rollup on
the same tables whose injected timestamps coincide still differ in the
envelope's `execution_time_seconds` field, so the injected "now" timestamp
is not the only time-dependent field of the response. -/
theorem claim9_determinism_counterexample :
    (runAnalysisEnvelope "aep" [] emptyTables 0 5).map (fun e => e.results)
      = (runAnalysisEnvelope "aep" [] emptyTables 4 5).map (fun e => e.results) ∧
    (runAnalysisEnvelope "aep" [] emptyTables 0 5).map (fun e => e.timestamp)
      = (runAnalysisEnvelope "aep" [] emptyTables 4 5).map (fun e => e.timestamp) ∧
    (runAnalysisEnvelope "aep" [] emptyTables 0 5).map (fun e => e.executionTimeSeconds)
      ≠ (runAnalysisEnvelope "aep" [] emptyTables 4 5).map (fun e => e.executionTimeSeconds) := by
  have h1 : runAnalysisResults "aep" [] emptyTables
      = some (AnalysisResults.aep (runAepAnalysis [] emptyTables)) := by
    rw [runAnalysisResults, if_pos (Or.inr rfl)]
  refine ⟨?_, ?_, ?_⟩
  · rw [runAnalysisEnvelope, runAnalysisEnvelope, h1]
    rfl
  · rw [runAnalysisEnvelope, runAnalysisEnvelope, h1]
    rfl
  · rw [runAnalysisEnvelope, runAnalysisEnvelope, h1]
    simp only [Option.map_some', ne_eq, Option.some.injEq]
    norm_num

/-- Claim C9 as amended: re-running any rollup on the same tables yields
identical `results` (and `status`) regardless of the wall clock — the
computation reads no randomness and no time — while the time-dependent
envelope fields are exactly the injected timestamp and
`execution_time_seconds`, not the timestamp alone. -/
theorem claim9_determinism_amended (analysisType : String) (params : Params)
    (t : Tables) (s1 e1 s2 e2 : ℚ) :
    (runAnalysisEnvelope analysisType params t s1 e1).map (fun e => e.results)
      = (runAnalysisEnvelope analysisType params t s2 e2).map (fun e => e.results) ∧
    (runAnalysisEnvelope analysisType params t s1 e1).map (fun e => e.status)
      = (runAnalysisEnvelope analysisType params t s2 e2).map (fun e => e.status) := by
  rcases h : runAnalysisResults analysisType params t with _ | r <;>
    simp [runAnalysisEnvelope, h]

/-- Claim C10: two analysis requests that differ only in `parameters`
produce equal results for every analysis type — no implementation reads
its `params` argument. -/
theorem claim10_params_ignored (analysisType : String) (p1 p2 : Params)
    (t : Tables) :
    runAnalysisResults analysisType p1 t = runAnalysisResults analysisType p2 t :=
  rfl

end OpenOADashboard
